import Mathlib

/-!
Verification development for the event-orchestration core of the
`action-potential` repository (TypeScript).  The definitions below are a
shallow embedding of the source files:

* `src/core/room.ts`           — `Room`, `Memory`
* `src/core/roomManager.ts`    — `RoomManager`
* `src/core/core.ts`           — `Core` (dispatcher): `ensureRoom`,
                                 platform inference, `routeEvent`
* `src/core/processor.ts`      — `EventProcessor`: `getTimeContext`,
                                 `enrichContent`, `generateActions`, `process`
* `src/core/consciousness.ts`  — `Consciousness.start` / `Consciousness.stop`

Modelling conventions:

* JS numbers are embedded as `ℚ` (all numeric comparisons in the source
  happen far from the double-precision rounding granularity, e.g. the
  `>= 0.7` threshold and the recency thresholds on integer-millisecond
  differences, so `ℚ` agrees with IEEE doubles on every reachable input).
* JS exceptions are `Except Unit` (or a small error inductive); a JS
  `try/catch` becomes a `match` on the `Except` value.  A thrown exception
  does NOT roll back mutations already performed, so stateful operations
  return `Except err α × State`.
* `uuidv4()` and `new Date()` are oracle parameters (a fresh-id counter
  and an explicit time argument).
* The text-completion collaborator (`llmClient.analyze`) is an oracle:
  each call's outcome is a parameter.  For `enrichContent` the outcome is
  recorded after `JSON.parse(stripCodeBlock ·)`: either the call threw
  (`Except.error`), the parse threw (`Except.ok none`), or it produced a
  JSON value (`Except.ok (some j)`).  JSON values are the `Json` inductive
  below, with JS truthiness and JS property-access semantics (access on
  `null`/`undefined` throws, access on other non-objects yields
  `undefined`).
* JS `Map` becomes an association list with `Map.set` replace-or-append
  semantics; JS `Set` becomes a duplicate-free insertion-ordered list.
-/

namespace ActionPotential

/-! ## JSON values (output of `JSON.parse`), JS truthiness and field access -/

/-- A JavaScript JSON value.  `undefined` is the JS `undefined` value: it is never
produced by `JSON.parse` but arises from property access on objects lacking
the key. -/
inductive Json where
  | null
  | undefined
  | bool (b : Bool)
  | num (q : ℚ)
  | str (s : String)
  | arr (elems : List Json)
  | obj (fields : List (String × Json))
  deriving Repr

/-- JS truthiness of a JSON value (`NaN` cannot be produced by `JSON.parse`). -/
def Json.truthy : Json → Bool
  | .null => false
  | .undefined => false
  | .bool b => b
  | .num q => q != 0
  | .str s => s != ""
  | .arr _ => true
  | .obj _ => true

/-- JS property access `j[k]`: throws `TypeError` on `null`/`undefined`,
yields the field (or `undefined`) on objects, `undefined` on every other
value. -/
def Json.getField : Json → String → Except Unit Json
  | .null, _ => .error ()
  | .undefined, _ => .error ()
  | .obj fields, k => .ok ((fields.lookup k).getD .undefined)
  | _, _ => .ok .undefined

/-- `Array.isArray`. -/
def Json.isArray : Json → Bool
  | .arr _ => true
  | _ => false

/-- Elements of a JSON array (only used after an `isArray` check). -/
def Json.asArr : Json → List Json
  | .arr xs => xs
  | _ => []

/-! ## Data model: `Memory` and `Room` (src/core/room.ts) -/

/-- One record of content appended to a `Room` (`Memory` in room.ts).
`id` is the modelled `uuidv4()` (a fresh counter value), `timestamp` the
modelled `new Date()` in epoch milliseconds. -/
structure Memory where
  id : Nat
  roomId : Nat
  content : String
  timestamp : Int
  deriving Repr, DecidableEq

/-- A `Room` (room.ts) together with the metadata the constructor stores.
Participants are JS `Set` entries; a participant may be the JS `undefined`
value (e.g. a tweet event lacking `username`), hence `Option String`. -/
structure RoomR where
  id : Nat
  platformId : Option String
  platform : String
  name : String
  participants : List (Option String)
  createdAt : Int
  lastActive : Int
  memories : List Memory
  deriving Repr, DecidableEq

/-- `Room.addMemory(content, metadata)`: plain append with a fresh id and a
fresh timestamp; also bumps `lastActive`.  Returns the created memory and
the updated room. -/
def Room.addMemory (room : RoomR) (content : String) (uuid : Nat) (now : Int) :
    Memory × RoomR :=
  let memory : Memory :=
    { id := uuid, roomId := room.id, content := content, timestamp := now }
  (memory, { room with memories := room.memories ++ [memory], lastActive := now })

/-- JS truthiness of the optional `limit` argument of `getMemories`
(`undefined` and `0` are both falsy). -/
def jsTruthyLimit : Option Nat → Bool
  | none => false
  | some l => l != 0

/-- JS `array.slice(-l)` for `l ≥ 1`: the last `l` elements (the whole array
when `l` exceeds its length). -/
def sliceLast (xs : List Memory) (l : Nat) : List Memory :=
  xs.drop (xs.length - l)

/-- `Room.getMemories(limit)`: `limit ? this.memories.slice(-limit)
: this.memories` (value level; the aliasing behaviour of the `: this.memories`
branch is modelled separately by `RoomH.getMemories` below). -/
def Room.getMemories (room : RoomR) (limit : Option Nat) : List Memory :=
  if jsTruthyLimit limit then sliceLast room.memories (limit.getD 0)
  else room.memories

/-- Fold of sequential `Room.addMemory` calls; each item carries the
content, the fresh uuid and the call time. -/
def Room.addAll (room : RoomR) (items : List (String × Nat × Int)) : RoomR :=
  items.foldl (fun r it => (Room.addMemory r it.1 it.2.1 it.2.2).2) room

/-! ### Reference-level model of `getMemories` (for the aliasing contract)

JS arrays are heap references: `slice` allocates a fresh array, while
returning `this.memories` returns the internal reference itself.  The heap
holds arrays indexed by reference number; a `Room`'s `memories` field is a
reference into it. -/

/-- Heap of JS arrays of memories. -/
structure Heap where
  arrays : List (List Memory)
  deriving Repr, DecidableEq

/-- Read the array behind a reference. -/
def Heap.readArr (h : Heap) (ref : Nat) : List Memory :=
  (h.arrays.get? ref).getD []

/-- Overwrite the array behind a reference (a caller mutating the array it
was handed, e.g. via `push`). -/
def Heap.writeArr (h : Heap) (ref : Nat) (v : List Memory) : Heap :=
  ⟨h.arrays.set ref v⟩

/-- Allocate a fresh array (what `slice` does). -/
def Heap.alloc (h : Heap) (v : List Memory) : Nat × Heap :=
  (h.arrays.length, ⟨h.arrays ++ [v]⟩)

/-- A room's `memories` field at reference level. -/
structure RoomRef where
  memRef : Nat
  deriving Repr, DecidableEq

/-- `Room.getMemories` at reference level: with a truthy limit it allocates
and returns a fresh array holding `slice(-limit)`; otherwise it returns the
internal reference unchanged. -/
def RoomH.getMemories (h : Heap) (room : RoomRef) (limit : Option Nat) :
    Nat × Heap :=
  if jsTruthyLimit limit then
    h.alloc (sliceLast (h.readArr room.memRef) (limit.getD 0))
  else (room.memRef, h)

/-! ## RoomManager state (src/core/roomManager.ts)

`rooms : Map<string, Room>` and `platformRooms : Map<string, Set<string>>`
become association lists / duplicate-free lists; room ids come from the
fresh-id counter `nextId`. -/

/-- JS `Map.get`. -/
def alookup {α : Type} : List (String × α) → String → Option α
  | [], _ => none
  | (k, v) :: rest, key => if k == key then some v else alookup rest key

/-- JS `Map.set` (replace in place, else append). -/
def aset {α : Type} : List (String × α) → String → α → List (String × α)
  | [], key, v => [(key, v)]
  | (k, w) :: rest, key, v =>
      if k == key then (key, v) :: rest else (k, w) :: aset rest key v

/-- JS `Set.add` on a set of room ids. -/
def setAdd (xs : List Nat) (x : Nat) : List Nat :=
  if xs.contains x then xs else xs ++ [x]

/-- The `RoomManager`'s mutable state. -/
structure RMState where
  rooms : List RoomR
  platformRooms : List (String × List Nat)
  nextId : Nat
  deriving Repr, DecidableEq

/-- The state of a freshly constructed `RoomManager`. -/
def RMState.init : RMState := ⟨[], [], 0⟩

/-- `RoomManager.getRoom(roomId)`: `this.rooms.get(roomId)`. -/
def RMState.getRoom (s : RMState) (roomId : Nat) : Option RoomR :=
  s.rooms.find? (fun r => r.id == roomId)

/-- `RoomManager.createRoom(platformId, platform, metadata)`: allocates a
`Room` with a fresh id, stores it under its id and indexes it by platform.
No duplicate check (lookup-then-create is the caller's job). -/
def RoomManager.createRoom (s : RMState) (platformId : Option String)
    (platform : String) (name : String) (participants : List (Option String))
    (now : Int) : RoomR × RMState :=
  let room : RoomR :=
    { id := s.nextId, platformId := platformId, platform := platform,
      name := name, participants := participants, createdAt := now,
      lastActive := now, memories := [] }
  let rooms' :=
    if s.rooms.any (fun r => r.id == room.id) then
      s.rooms.map (fun r => if r.id == room.id then room else r)
    else s.rooms ++ [room]
  let ids := (alookup s.platformRooms platform).getD []
  let pr := aset s.platformRooms platform (setAdd ids room.id)
  (room, { rooms := rooms', platformRooms := pr, nextId := s.nextId + 1 })

/-- `room?.platformId` on a possibly-`undefined` room (optional chaining). -/
def optPlatformId : Option RoomR → Option String
  | some r => r.platformId
  | none => none

/-- `RoomManager.getRoomByPlatformId(platformId, platform)`: take the
platform's id set, map the ids through `rooms.get`, and `find` the first
entry whose `?.platformId` strictly equals the requested platformId. -/
def RoomManager.getRoomByPlatformId (s : RMState) (platformId : Option String)
    (platform : String) : Option RoomR :=
  match alookup s.platformRooms platform with
  | none => none
  | some roomIds =>
    match (roomIds.map (fun i => s.rooms.find? (fun r => r.id == i))).find?
        (fun r? => optPlatformId r? == platformId) with
    | none => none
    | some r? => r?

/-- Errors thrown by `RoomManager.addMemory`. -/
inductive MgrErr where
  | roomNotFound (roomId : Nat)
  | storeFailed
  deriving Repr, DecidableEq

/-- A call to the similarity-index mirror's `store` (content plus the room it
was enriched with). -/
structure MirrorCall where
  content : String
  roomId : Nat
  deriving Repr, DecidableEq

/-- `RoomManager.addMemory(roomId, content, metadata)`: throws
`Room <id> not found` when the room is unknown; otherwise appends via
`room.addMemory` and then, if a vector DB is configured, awaits
`vectorDb.store` — whose failure (`ChromaVectorDB.store` logs and rethrows)
propagates out of `addMemory`.  The returned triple is (result, state after
the call, mirror `store` calls issued).  A throw does not roll back the
in-memory append already performed. -/
def RoomManager.addMemory (s : RMState) (vectorDbConfigured : Bool)
    (storeOutcome : Except Unit Unit) (roomId : Nat) (content : String)
    (now : Int) : Except MgrErr Memory × RMState × List MirrorCall :=
  match RMState.getRoom s roomId with
  | none => (.error (.roomNotFound roomId), s, [])
  | some room =>
    let memory := (Room.addMemory room content s.nextId now).1
    let rooms' := s.rooms.map (fun r =>
      if r.id == roomId then (Room.addMemory r content s.nextId now).2 else r)
    let s1 : RMState :=
      { rooms := rooms', platformRooms := s.platformRooms,
        nextId := s.nextId + 1 }
    if vectorDbConfigured then
      match storeOutcome with
      | .error _ => (.error .storeFailed, s1, [⟨memory.content, room.id⟩])
      | .ok _ => (.ok memory, s1, [⟨memory.content, room.id⟩])
    else (.ok memory, s1, [])

/-! ## Dispatcher: platform inference and `ensureRoom` (src/core/core.ts) -/

/-- An inbound `ClientEvent`.  `tweetId`, `channelId` and `username` model
the extra fields of `TweetReceived` / `DiscordMessageReceived`; the source
reads them through unchecked casts, so on other events they are the JS
`undefined` value (`none`). -/
structure ClientEvent where
  type : String
  source : String
  content : String
  timestamp : Int
  tweetId : Option String := none
  channelId : Option String := none
  username : Option String := none
  deriving Repr, DecidableEq

/-- JS `String.prototype.startsWith`, evaluated on the character list
(Lean's own byte-based `String.startsWith` agrees but does not reduce
definitionally, which the concrete witnesses need). -/
def strStartsWith (s pre : String) : Bool :=
  pre.data.isPrefixOf s.data

/-- `Core.isTweetEvent`. -/
def Core.isTweetEvent (e : ClientEvent) : Bool :=
  strStartsWith e.type "tweet_"

/-- `Core.isDiscordEvent`. -/
def Core.isDiscordEvent (e : ClientEvent) : Bool :=
  strStartsWith e.type "discord_"

/-- `Core.getPlatform`: fixed table on the event-kind head, falling back to
the leading token of the source id (`event.source.split("-")[0]`). -/
def Core.getPlatform (e : ClientEvent) : String :=
  if strStartsWith e.type "tweet_" || strStartsWith e.type "dm_" then "twitter"
  else if strStartsWith e.type "discord_" then "discord"
  else (e.source.splitOn "-").headD ""

/-- `Core.getPlatformId`: tweet id for tweet events, channel id for discord
events, else the raw source id.  The result is `Option` because the cast
`(event as TweetReceived).tweetId` yields `undefined` on a tweet-kinded
event without the field. -/
def Core.getPlatformId (e : ClientEvent) : Option String :=
  if Core.isTweetEvent e then e.tweetId
  else if Core.isDiscordEvent e then e.channelId
  else some e.source

/-- JS string interpolation of a possibly-`undefined` value. -/
def showOptStr : Option String → String
  | some s => s
  | none => "undefined"

/-- `Core.getRoomName`. -/
def Core.getRoomName (e : ClientEvent) : String :=
  if Core.isTweetEvent e then "Twitter Thread by " ++ showOptStr e.username
  else if Core.isDiscordEvent e then "Discord Channel " ++ showOptStr e.channelId
  else "Room for " ++ e.source

/-- JS `Set.add` on participants. -/
def partAdd (xs : List (Option String)) (x : Option String) :
    List (Option String) :=
  if xs.contains x then xs else xs ++ [x]

/-- `Core.getParticipants`: a JS `Set` receiving the username for tweet
events, the username for discord events, and always the source. -/
def Core.getParticipants (e : ClientEvent) : List (Option String) :=
  let p0 : List (Option String) := []
  let p1 := if Core.isTweetEvent e then partAdd p0 e.username else p0
  let p2 := if Core.isDiscordEvent e then partAdd p1 e.username else p1
  partAdd p2 (some e.source)

/-- `Core.ensureRoom(event)`: lookup by the derived (platformId, platform),
create on miss. -/
def Core.ensureRoom (s : RMState) (e : ClientEvent) (now : Int) :
    RoomR × RMState :=
  let platformId := Core.getPlatformId e
  let platform := Core.getPlatform e
  match RoomManager.getRoomByPlatformId s platformId platform with
  | some room => (room, s)
  | none =>
      RoomManager.createRoom s platformId platform (Core.getRoomName e)
        (Core.getParticipants e) now

/-- One inbound event together with the oracle values consumed while
`Core.emit` processes it: the current time and the outcome of the mirror
`store` call. -/
structure EmitInput where
  event : ClientEvent
  now : Int
  storeOutcome : Except Unit Unit
  deriving Repr

/-- The room-state effect of one `Core.emit` call: `ensureRoom` followed by
`roomManager.addMemory` on the resolved room.  (The later pipeline /
routing / handler stages never touch the rooms or the platform index, and a
mirror-store throw after the append leaves the already-updated state in
place, so this is the complete effect of `emit` on `RMState`.) -/
def Core.emitRoomStep (vdb : Bool) (s : RMState) (inp : EmitInput) : RMState :=
  let (room, s1) := Core.ensureRoom s inp.event inp.now
  (RoomManager.addMemory s1 vdb inp.storeOutcome room.id inp.event.content
      inp.now).2.1

/-- Sequential processing of a list of inbound events through `Core.emit`,
starting from a freshly constructed `RoomManager`. -/
def Core.processEvents (vdb : Bool) (inps : List EmitInput) : RMState :=
  inps.foldl (Core.emitRoomStep vdb) RMState.init

/-- Predicate: a room carries the given (platformId, platform) pair. -/
def pairPred (platformId : Option String) (platform : String) (r : RoomR) :
    Bool :=
  r.platformId == platformId && r.platform == platform

/-! ## Event processor (src/core/processor.ts) -/

/-- `EventProcessor.getTimeContext(timestamp)`: recency bucket of
`(now - timestamp) / (1000*60*60)` hours.  Both times are epoch
milliseconds (integers, exactly representable as doubles; near the
thresholds the double division is exact enough that `ℚ` and IEEE agree on
every comparison). -/
def EventProcessor.hoursDiff (nowMs tsMs : Int) : ℚ :=
  ((nowMs : ℚ) - (tsMs : ℚ)) / (1000 * 60 * 60)

/-- The if-chain of `getTimeContext`. -/
def EventProcessor.getTimeContext (nowMs tsMs : Int) : String :=
  if EventProcessor.hoursDiff nowMs tsMs < 24 then "very_recent"
  else if EventProcessor.hoursDiff nowMs tsMs < 72 then "recent"
  else if EventProcessor.hoursDiff nowMs tsMs < 168 then "this_week"
  else if EventProcessor.hoursDiff nowMs tsMs < 720 then "this_month"
  else "older"

/-- Outcome of one `llmClient.analyze` call in `enrichContent`, recorded
after `JSON.parse(stripCodeBlock(response))`: `.error` = the `analyze` call
itself threw; `.ok none` = the response string failed to parse as JSON;
`.ok (some j)` = it parsed to the JSON value `j`. -/
abbrev AnalyzeOutcome : Type := Except Unit (Option Json)

/-- The enrichment context built by `enrichContent` (the fields of
`EnrichedContext` it populates).  Field values keep their raw JS type
(`Json`), since the source assigns whatever the parsed response held. -/
structure EnrichedContext where
  timeContext : String
  summary : Json
  topics : List Json
  relatedMemories : List String
  sentiment : Json
  entities : List Json
  intent : Json

/-- The validation in `enrichContent`'s inner `try`:
`if (!result.summary || !Array.isArray(result.topics)) throw` — property
access on `null`/`undefined` itself throws, and `||` short-circuits. -/
def validateEnrichment (j : Json) : Except Unit Json := do
  let s ← j.getField "summary"
  if !s.truthy then .error () else
  let t ← j.getField "topics"
  if !t.isArray then .error () else .ok j

/-- The record construction at the end of `enrichContent`'s outer `try`:
each `result.<field>` access can throw (when `result` is `null`), and the
`|| default` / `Array.isArray` guards supply defaults. -/
def buildEnrichedContext (content : String) (relMem : List String)
    (timeCtx : String) (result : Json) : Except Unit EnrichedContext :=
  match result.getField "summary", result.getField "topics",
      result.getField "sentiment", result.getField "entities",
      result.getField "intent" with
  | .ok s, .ok t, .ok sen, .ok ent, .ok int =>
    .ok { timeContext := timeCtx
          summary := if s.truthy then s else .str (content.take 100)
          topics := if t.isArray then t.asArr else []
          relatedMemories := relMem
          sentiment := if sen.truthy then sen else .str "neutral"
          entities := if ent.isArray then ent.asArr else []
          intent := if int.truthy then int else .str "unknown" }
  | _, _, _, _, _ => .error ()

/-- The fallback enrichment returned by `enrichContent`'s outer `catch`. -/
def fallbackContext (content : String) (relMem : List String)
    (timeCtx : String) : EnrichedContext :=
  { timeContext := timeCtx
    summary := .str (content.take 100)
    topics := []
    relatedMemories := relMem
    sentiment := .str "neutral"
    entities := []
    intent := .str "unknown" }

/-- First attempt of `enrichContent`'s inner `try`: parse outcome then
structure validation. -/
def firstAttempt (a1 : Option Json) : Except Unit Json :=
  match a1 with
  | none => .error ()
  | some j => validateEnrichment j

/-- `EventProcessor.enrichContent(content, room, timestamp)`.
`roomSupport`/`relMemOracle` model the `hasRoomSupport` probe and the
`findSimilarInRoom` result; `a1`/`a2` are the outcomes of the first and the
retry `analyze` call.  The outer `catch` converts any escaped throw into
the fallback enrichment, so the function is total. -/
def EventProcessor.enrichContent (content : String) (roomSupport : Bool)
    (relMemOracle : List String) (nowMs tsMs : Int) (a1 a2 : AnalyzeOutcome) :
    EnrichedContext :=
  let relMem := if roomSupport then relMemOracle else []
  let timeCtx := EventProcessor.getTimeContext nowMs tsMs
  let attempt : Except Unit EnrichedContext :=
    match a1 with
    | .error _ => .error ()
    | .ok p1 =>
      match firstAttempt p1 with
      | .ok result => buildEnrichedContext content relMem timeCtx result
      | .error _ =>
        match a2 with
        | .error _ => .error ()
        | .ok none => .error ()
        | .ok (some result) => buildEnrichedContext content relMem timeCtx result
  match attempt with
  | .ok ctx => ctx
  | .error _ => fallbackContext content relMem timeCtx

/-- Number of `llmClient.analyze` calls `enrichContent` issues for a given
first-call outcome: 1 when the first response parses and validates (or the
call itself threw, reaching the outer `catch` directly); 2 when parse or
validation failed and the single retry ran. -/
def EventProcessor.enrichAnalyzeCalls (a1 : AnalyzeOutcome) : Nat :=
  match a1 with
  | .error _ => 1
  | .ok p1 => match firstAttempt p1 with
    | .ok _ => 1
    | .error _ => 2

/-! ### Action generation (`generateActions`) -/

/-- An intent produced by the intent extractor (`ProcessedIntent`). -/
structure ProcessedIntent where
  type : String
  confidence : ℚ
  action : Option String := none
  deriving Repr, DecidableEq

/-- A parameter declaration of an `ActionDefinition` (src/core/actions.ts). -/
structure ParamSpec where
  type : String
  description : String
  required : Bool
  deriving Repr, DecidableEq

/-- An `ActionDefinition` from the action registry. -/
structure ActionDefinition where
  type : String
  description : String
  targetPlatforms : List String
  eventType : String
  clientType : String
  parameters : List (String × ParamSpec)
  deriving Repr, DecidableEq

/-- The action registry: `Map<string, ActionDefinition>`. -/
abbrev ActionRegistry : Type := List (String × ActionDefinition)

/-- `ActionRegistry.getActionDefinition(type)`. -/
def getActionDefinition (reg : ActionRegistry) (ty : String) :
    Option ActionDefinition :=
  alookup reg ty

/-- The parsed `analyze` response for one intent in `generateActions`
(numeric-confidence responses; `hasParams = false` models a response whose
`parameters` field is missing, making `result.parameters.content` throw). -/
structure Suggestion where
  selectedAction : String
  confidence : ℚ
  hasParams : Bool
  paramContent : Option String
  reasoning : String
  deriving Repr, DecidableEq

/-- Outcome of the per-intent `analyze`+`JSON.parse` in `generateActions`:
`.error` = the call or the parse threw (handled by the per-intent `catch`). -/
abbrev GenOutcome : Type := Except Unit Suggestion

/-- An outbound action event as built by `generateActions` (the metadata
fields the claim refers to are lifted to record fields). -/
structure GenEvent where
  type : String
  target : String
  content : String
  intent : String
  confidence : ℚ
  reasoning : String
  deriving Repr, DecidableEq

/-- The body of `generateActions`' per-intent loop iteration: accept the
suggestion only when `result.confidence >= 0.7` and the selected action is
registered; every throw inside the iteration is swallowed by its `catch`
(yielding no action for that intent). -/
def EventProcessor.genOne (reg : ActionRegistry) (intent : ProcessedIntent)
    (resp : GenOutcome) : List GenEvent :=
  match resp with
  | .error _ => []
  | .ok sug =>
    if sug.confidence ≥ 7/10 then
      match getActionDefinition reg sug.selectedAction with
      | some actionDef =>
        if sug.hasParams then
          [{ type := actionDef.eventType, target := actionDef.clientType,
             content := sug.paramContent.getD "", intent := intent.type,
             confidence := sug.confidence, reasoning := sug.reasoning }]
        else []
      | none => []
    else []

/-- `EventProcessor.generateActions(intents, room)`: one oracle response per
intent, accepted suggestions collected in order. -/
def EventProcessor.generateActions (reg : ActionRegistry)
    (intents : List ProcessedIntent) (resps : List GenOutcome) :
    List GenEvent :=
  (intents.zip resps).flatMap (fun p => EventProcessor.genOne reg p.1 p.2)

/-- The result record of `EventProcessor.process`. -/
structure ProcessingResult where
  intents : List ProcessedIntent
  suggestedActions : List GenEvent
  enrichedContext : EnrichedContext

/-- `EventProcessor.process(event, room)`: enrich, extract intents (the
extractor's output is the `intents` oracle), mirror into the room-scoped
vector store when supported (a throw there propagates), then generate
actions.  Only the completion collaborator's outcomes (`a1`, `a2`,
`genResps`) are untrusted here. -/
def EventProcessor.process (reg : ActionRegistry) (roomSupport : Bool)
    (relMemOracle : List String) (storeOutcome : Except Unit Unit)
    (intents : List ProcessedIntent) (content : String) (nowMs tsMs : Int)
    (a1 a2 : AnalyzeOutcome) (genResps : List GenOutcome) :
    Except Unit ProcessingResult := do
  let ctx := EventProcessor.enrichContent content roomSupport relMemOracle
      nowMs tsMs a1 a2
  if roomSupport then
    match storeOutcome with
    | .error e => throw e
    | .ok _ => pure ()
  let actions := EventProcessor.generateActions reg intents genResps
  .ok { intents := intents, suggestedActions := actions,
        enrichedContext := ctx }

/-! ## Dispatcher routing (`Core.routeEvent`, src/core/core.ts) -/

/-- An outbound `CoreEvent` (the fields `routeEvent` reads). -/
structure CoreEvent where
  type : String
  target : String
  content : String
  deriving Repr, DecidableEq

/-- A registered client as `routeEvent` sees it: its type tag and the
outcome its `emit` would have for the routed event. -/
structure ClientM where
  type : String
  emitOutcome : Except Unit Unit
  deriving Repr

/-- A log record written by `routeEvent`. -/
inductive LogEntry where
  | warnTargetNotFound (type target : String)
  | debugRouted (type target clientType : String)
  deriving Repr, DecidableEq

/-- A delivery performed by `routeEvent` (the `targetClient.emit(event)`
call). -/
structure Delivery where
  clientId : String
  event : CoreEvent
  deriving Repr, DecidableEq

/-- `Core.routeEvent(event)`: look the target client up in
`this.clients`; if present, await its `emit` (whose throw propagates) and
log success; if absent, log a warning and do nothing else.  Returns the
(unchanged) client map, the deliveries made and the log records written. -/
def Core.routeEvent (clients : List (String × ClientM)) (e : CoreEvent) :
    Except Unit (List (String × ClientM) × List Delivery × List LogEntry) :=
  match alookup clients e.target with
  | some targetClient =>
    match targetClient.emitOutcome with
    | .error err => .error err
    | .ok _ =>
        .ok (clients, [⟨e.target, e⟩],
             [.debugRouted e.type e.target targetClient.type])
  | none => .ok (clients, [], [.warnTargetNotFound e.type e.target])

/-! ## Autonomous loop (`Consciousness`, src/core/consciousness.ts) -/

/-- The `Consciousness` fields relevant to start/stop, plus the runtime's
view of which interval timers are live (`active`) and a fresh-handle
counter. -/
structure ConscState where
  isThinking : Bool
  thoughtInterval : Option Nat
  active : List Nat
  nextTimer : Nat
  deriving Repr, DecidableEq

/-- A freshly constructed `Consciousness` (no timer scheduled). -/
def ConscState.init : ConscState := ⟨false, none, [], 0⟩

/-- `Consciousness.start()`: early-return when already thinking, else mark
thinking and schedule one interval timer. -/
def Consciousness.start (s : ConscState) : ConscState :=
  if s.isThinking then s
  else
    { isThinking := true, thoughtInterval := some s.nextTimer,
      active := s.active ++ [s.nextTimer], nextTimer := s.nextTimer + 1 }

/-- `Consciousness.stop()`: clear the interval if one is held, then mark not
thinking. -/
def Consciousness.stop (s : ConscState) : ConscState :=
  let s1 :=
    match s.thoughtInterval with
    | some t =>
        { s with
          active := s.active.filter (fun x => !(x == t)),
          thoughtInterval := none }
    | none => s
  { s1 with isThinking := false }

/-- A start/stop call. -/
inductive ConscOp where
  | start
  | stop
  deriving Repr, DecidableEq

/-- Run a sequence of start/stop calls from the initial state. -/
def Consciousness.run (ops : List ConscOp) : ConscState :=
  ops.foldl
    (fun s op => match op with
      | .start => Consciousness.start s
      | .stop => Consciousness.stop s)
    ConscState.init

/-! ## Auxiliary definitions used by the theorems below -/

/-- The `tweet` action statically registered by `CoreActionRegistry`
(src/core/actions.ts). -/
def tweetActionDef : ActionDefinition :=
  { type := "tweet"
    description :=
      "Post a new tweet to Twitter, you should always do this action."
    targetPlatforms := ["twitter"]
    eventType := "tweet_request"
    clientType := "twitter"
    parameters :=
      [("content", ⟨"string", "The tweet content", true⟩),
       ("replyTo", ⟨"string", "Tweet ID to reply to", false⟩)] }

/-- The initial contents of `CoreActionRegistry`. -/
def coreActionRegistry : ActionRegistry := [("tweet", tweetActionDef)]

/-- The memory records produced by a sequence of `Room.addMemory` calls on a
room with the given id. -/
def builtMems (roomId : Nat) (items : List (String × Nat × Int)) :
    List Memory :=
  items.map (fun it =>
    { id := it.2.1, roomId := roomId, content := it.1, timestamp := it.2.2 })

/-- Non-nullness of the enrichment fields the pipeline promises: summary,
sentiment and intent are neither JS `null` nor `undefined` (topics,
entities and relatedMemories are lists and cannot be null). -/
def contextNonNull (ctx : EnrichedContext) : Prop :=
  ctx.summary ≠ .null ∧ ctx.summary ≠ .undefined ∧
  ctx.sentiment ≠ .null ∧ ctx.sentiment ≠ .undefined ∧
  ctx.intent ≠ .null ∧ ctx.intent ≠ .undefined

/-- Internal consistency of a `Consciousness` state: the `isThinking` flag
mirrors timer ownership, and the runtime's live timers are exactly the held
handle. -/
def ConscState.inv (s : ConscState) : Prop :=
  s.isThinking = s.thoughtInterval.isSome ∧
  (match s.thoughtInterval with
   | some t => s.active = [t]
   | none => s.active = [])

/-- Invariant of the `RoomManager` state reachable through `Core.emit`:
room ids are below the fresh-id counter and duplicate-free, the platform
index is sound and complete, and no (platformId, platform) pair occurs
twice. -/
def RMState.inv (s : RMState) : Prop :=
  (∀ r ∈ s.rooms, r.id < s.nextId) ∧
  (s.rooms.map RoomR.id).Nodup ∧
  (∀ p ids, alookup s.platformRooms p = some ids →
     ∀ i ∈ ids, ∃ r ∈ s.rooms, r.id = i ∧ r.platform = p) ∧
  (∀ r ∈ s.rooms, ∃ ids,
     alookup s.platformRooms r.platform = some ids ∧ r.id ∈ ids) ∧
  (∀ pid p, s.rooms.countP (pairPred pid p) ≤ 1)

/-!
# Theorems

Claim theorems are named `cN_...`; everything else is shared auxiliary
material.
-/

/-- C4: the recency bucket is a pure, deterministic function of the elapsed
time in hours, with exactly the boundary semantics of the source's strict
`<` chain: `< 24` very_recent, `24 ≤ · < 72` recent, `72 ≤ · < 168`
this_week, `168 ≤ · < 720` this_month, and everything at or beyond 720
hours older. -/
theorem c4_recency_bucket (nowMs tsMs : Int) :
    (EventProcessor.hoursDiff nowMs tsMs < 24 →
      EventProcessor.getTimeContext nowMs tsMs = "very_recent") ∧
    (24 ≤ EventProcessor.hoursDiff nowMs tsMs →
      EventProcessor.hoursDiff nowMs tsMs < 72 →
      EventProcessor.getTimeContext nowMs tsMs = "recent") ∧
    (72 ≤ EventProcessor.hoursDiff nowMs tsMs →
      EventProcessor.hoursDiff nowMs tsMs < 168 →
      EventProcessor.getTimeContext nowMs tsMs = "this_week") ∧
    (168 ≤ EventProcessor.hoursDiff nowMs tsMs →
      EventProcessor.hoursDiff nowMs tsMs < 720 →
      EventProcessor.getTimeContext nowMs tsMs = "this_month") ∧
    (720 ≤ EventProcessor.hoursDiff nowMs tsMs →
      EventProcessor.getTimeContext nowMs tsMs = "older") := by
  refine ⟨?_, ?_, ?_, ?_, ?_⟩
  · intro h
    simp only [EventProcessor.getTimeContext]
    rw [if_pos h]
  · intro h1 h2
    simp only [EventProcessor.getTimeContext]
    rw [if_neg (by linarith), if_pos h2]
  · intro h1 h2
    simp only [EventProcessor.getTimeContext]
    rw [if_neg (by linarith), if_neg (by linarith), if_pos h2]
  · intro h1 h2
    simp only [EventProcessor.getTimeContext]
    rw [if_neg (by linarith), if_neg (by linarith), if_neg (by linarith),
      if_pos h2]
  · intro h1
    simp only [EventProcessor.getTimeContext]
    rw [if_neg (by linarith), if_neg (by linarith), if_neg (by linarith),
      if_neg (by linarith)]

/-- Witness for C4 at the boundary inputs of the claim: 23.9h, 24.1h,
71.9h and 72.1h of elapsed time (in integer milliseconds). -/
theorem c4_recency_bucket_witness :
    EventProcessor.getTimeContext 86040000 0 = "very_recent" ∧
    EventProcessor.getTimeContext 86760000 0 = "recent" ∧
    EventProcessor.getTimeContext 258840000 0 = "recent" ∧
    EventProcessor.getTimeContext 259560000 0 = "this_week" :=
  ⟨(c4_recency_bucket 86040000 0).1 (by norm_num [EventProcessor.hoursDiff]),
   (c4_recency_bucket 86760000 0).2.1
     (by norm_num [EventProcessor.hoursDiff])
     (by norm_num [EventProcessor.hoursDiff]),
   (c4_recency_bucket 258840000 0).2.1
     (by norm_num [EventProcessor.hoursDiff])
     (by norm_num [EventProcessor.hoursDiff]),
   (c4_recency_bucket 259560000 0).2.2.1
     (by norm_num [EventProcessor.hoursDiff])
     (by norm_num [EventProcessor.hoursDiff])⟩

/-! ### C9: autonomous loop start/stop -/

theorem consc_inv_init : ConscState.inv ConscState.init := ⟨rfl, rfl⟩

theorem consc_inv_start (s : ConscState) (h : s.inv) :
    (Consciousness.start s).inv := by
  obtain ⟨h1, h2⟩ := h
  by_cases hT : s.isThinking
  · simpa [Consciousness.start, hT] using ⟨h1, h2⟩
  · have hNone : s.thoughtInterval = none := by
      cases hI : s.thoughtInterval with
      | none => rfl
      | some t => rw [hI] at h1; simp [hT] at h1
    rw [hNone] at h2
    simp only at h2
    simp [Consciousness.start, hT, ConscState.inv, h2]

theorem consc_inv_stop (s : ConscState) (h : s.inv) :
    (Consciousness.stop s).inv := by
  obtain ⟨h1, h2⟩ := h
  cases hI : s.thoughtInterval with
  | none =>
    rw [hI] at h2
    simp only at h2
    simp [Consciousness.stop, hI, ConscState.inv, h2]
  | some t =>
    rw [hI] at h2
    simp only at h2
    simp [Consciousness.stop, hI, ConscState.inv, h2]

theorem consc_inv_run (ops : List ConscOp) : (Consciousness.run ops).inv := by
  suffices h : ∀ s : ConscState, s.inv →
      (ops.foldl
        (fun s op => match op with
          | .start => Consciousness.start s
          | .stop => Consciousness.stop s) s).inv by
    exact h ConscState.init consc_inv_init
  induction ops with
  | nil => intro s hs; exact hs
  | cons op rest ih =>
    intro s hs
    cases op with
    | start => exact ih _ (consc_inv_start s hs)
    | stop => exact ih _ (consc_inv_stop s hs)

/-- C9: after any sequence of start/stop calls at most one timer is live;
`start` while running is a no-op (no second timer, schedule unchanged), and
`stop` while stopped (including before any start) is a no-op. -/
theorem c9_start_stop_idempotent (ops : List ConscOp) :
    (Consciousness.run ops).active.length ≤ 1 ∧
    ((Consciousness.run ops).isThinking = true →
      Consciousness.start (Consciousness.run ops) = Consciousness.run ops) ∧
    ((Consciousness.run ops).isThinking = false →
      Consciousness.stop (Consciousness.run ops) = Consciousness.run ops) := by
  obtain ⟨h1, h2⟩ := consc_inv_run ops
  set s := Consciousness.run ops with hs
  refine ⟨?_, ?_, ?_⟩
  · cases hI : s.thoughtInterval with
    | none => rw [hI] at h2; simp only at h2; simp [h2]
    | some t => rw [hI] at h2; simp only at h2; simp [h2]
  · intro hT
    simp [Consciousness.start, hT]
  · intro hT
    have hNone : s.thoughtInterval = none := by
      cases hI : s.thoughtInterval with
      | none => rfl
      | some t => rw [hI] at h1; simp [hT] at h1
    rcases s with ⟨th, ti, ac, nt⟩
    simp only at hT hNone
    simp [Consciousness.stop, hT, hNone]

/-- Witness for C9: a second `start` after a `start` changes nothing, and
`stop` before any `start` changes nothing. -/
theorem c9_start_stop_idempotent_witness :
    Consciousness.start (Consciousness.run [ConscOp.start]) =
      Consciousness.run [ConscOp.start] ∧
    Consciousness.stop (Consciousness.run []) = Consciousness.run [] :=
  ⟨(c9_start_stop_idempotent [ConscOp.start]).2.1 rfl,
   (c9_start_stop_idempotent []).2.2 rfl⟩

/-! ### C5: routing to an unknown client -/

/-- C5: routing an outbound event whose target client id is not registered
does not throw, delivers nothing, queues nothing, leaves the client map
unchanged, and only writes a warning log record. -/
theorem c5_route_unknown_target (clients : List (String × ClientM))
    (e : CoreEvent) (h : alookup clients e.target = none) :
    Core.routeEvent clients e =
      .ok (clients, [], [.warnTargetNotFound e.type e.target]) := by
  simp [Core.routeEvent, h]

/-- Witness for C5: a `tweet_request` addressed to "twitter" with no
registered clients is dropped with a warning. -/
theorem c5_route_unknown_target_witness :
    Core.routeEvent [] ⟨"tweet_request", "twitter", "hello"⟩ =
      .ok ([], [], [.warnTargetNotFound "tweet_request" "twitter"]) :=
  c5_route_unknown_target [] ⟨"tweet_request", "twitter", "hello"⟩ rfl

/-! ### C6: append-only, order-preserving room memory -/

theorem addAll_memories (items : List (String × Nat × Int)) :
    ∀ room : RoomR,
      (Room.addAll room items).memories =
        room.memories ++ builtMems room.id items ∧
      (Room.addAll room items).id = room.id := by
  induction items with
  | nil => intro room; simp [Room.addAll, builtMems]
  | cons it rest ih =>
    intro room
    have hstep : Room.addAll room (it :: rest) =
        Room.addAll ((Room.addMemory room it.1 it.2.1 it.2.2).2) rest := by
      simp [Room.addAll]
    obtain ⟨ihm, ihi⟩ := ih ((Room.addMemory room it.1 it.2.1 it.2.2).2)
    constructor
    · rw [hstep, ihm]
      simp [Room.addMemory, builtMems]
    · rw [hstep, ihi]
      simp [Room.addMemory]

/-- C6 counterexample: with exactly one memory appended (`N = 1`), the call
`getMemories(0)` (a valid `k ≤ N`) does not return the last `0` memories —
the source treats the falsy limit `0` as "no limit" and returns the single
stored memory. -/
theorem c6_counterexample :
    Room.getMemories
      (Room.addAll ⟨0, none, "twitter", "room", [], 0, 0, []⟩
        [("hello", 1, 5)]) (some 0) ≠ [] := by
  decide

/-- C6 (amended): `addMemory` is append-only and order-preserving —
starting from a room with no memories, after N sequential appends
`getMemories()` returns exactly those N memories in insertion order, and
for every `1 ≤ k ≤ N` (k = 0 excluded: the falsy limit 0 returns
everything), `getMemories(k)` returns the last k of them in insertion
order. -/
theorem c6_append_only_order (room : RoomR)
    (items : List (String × Nat × Int)) (hempty : room.memories = []) :
    Room.getMemories (Room.addAll room items) none = builtMems room.id items ∧
    (builtMems room.id items).map Memory.content = items.map Prod.fst ∧
    ∀ k, 1 ≤ k → k ≤ items.length →
      Room.getMemories (Room.addAll room items) (some k) =
        (builtMems room.id items).drop (items.length - k) := by
  obtain ⟨hm, _⟩ := addAll_memories items room
  have hlen : (builtMems room.id items).length = items.length := by
    simp [builtMems]
  refine ⟨?_, ?_, ?_⟩
  · simp [Room.getMemories, jsTruthyLimit, hm, hempty]
  · simp [builtMems]
  · intro k hk1 hk2
    have htruthy : jsTruthyLimit (some k) = true := by
      simp [jsTruthyLimit]
      omega
    simp [Room.getMemories, htruthy, sliceLast, hm, hempty, hlen]

/-- Witness for C6 (amended): two appends; `getMemories()` returns both in
order and `getMemories(1)` returns the last one. -/
theorem c6_append_only_order_witness :
    Room.getMemories
        (Room.addAll ⟨7, some "t1", "twitter", "r", [], 0, 0, []⟩
          [("a", 1, 5), ("b", 2, 6)]) none =
      [⟨1, 7, "a", 5⟩, ⟨2, 7, "b", 6⟩] ∧
    Room.getMemories
        (Room.addAll ⟨7, some "t1", "twitter", "r", [], 0, 0, []⟩
          [("a", 1, 5), ("b", 2, 6)]) (some 1) =
      [⟨2, 7, "b", 6⟩] := by
  obtain ⟨h1, _, h3⟩ :=
    c6_append_only_order ⟨7, some "t1", "twitter", "r", [], 0, 0, []⟩
      [("a", 1, 5), ("b", 2, 6)] rfl
  refine ⟨?_, ?_⟩
  · rw [h1]; decide
  · rw [h3 1 (by decide) (by decide)]; decide

/-! ### C8: `getMemories` and aliasing of internal storage -/

/-- C8 counterexample: `getMemories()` with no limit hands the caller the
internal array reference itself; pushing an element onto it changes what
the room's storage holds, as observed by a later read. -/
theorem c8_counterexample :
    (RoomH.getMemories ⟨[[⟨0, 0, "a", 0⟩]]⟩ ⟨0⟩ none).1 = 0 ∧
    Heap.readArr
        (Heap.writeArr (RoomH.getMemories ⟨[[⟨0, 0, "a", 0⟩]]⟩ ⟨0⟩ none).2
          (RoomH.getMemories ⟨[[⟨0, 0, "a", 0⟩]]⟩ ⟨0⟩ none).1
          [⟨0, 0, "a", 0⟩, ⟨1, 0, "b", 0⟩])
        0 ≠ [⟨0, 0, "a", 0⟩] := by
  constructor
  · rfl
  · decide

/-- C8 (amended): `getMemories(limit)` with a truthy (nonzero) limit
returns a freshly allocated copy — any overwrite a caller performs on the
returned array leaves the room's stored memories, as observed through the
room's own reference, unchanged.  With no limit (or limit 0) the internal
reference itself escapes (see the counterexample). -/
theorem c8_limit_returns_copy (h : Heap) (room : RoomRef) (l : Nat)
    (v : List Memory) (hl : 1 ≤ l) (hr : room.memRef < h.arrays.length) :
    Heap.readArr
        (Heap.writeArr (RoomH.getMemories h room (some l)).2
          (RoomH.getMemories h room (some l)).1 v)
        room.memRef =
      Heap.readArr h room.memRef := by
  have htruthy : jsTruthyLimit (some l) = true := by
    simp [jsTruthyLimit]; omega
  simp only [RoomH.getMemories, htruthy, if_pos, Heap.alloc]
  simp only [Heap.writeArr, Heap.readArr]
  have hne : room.memRef ≠ h.arrays.length := Nat.ne_of_lt hr
  rw [List.get?_eq_getElem?, List.get?_eq_getElem?]
  rw [List.getElem?_set_ne (by omega)]
  rw [List.getElem?_append, if_pos hr]

/-- Witness for C8 (amended): a one-element store, `getMemories(1)`,
overwriting the returned copy does not change the stored memory. -/
theorem c8_limit_returns_copy_witness :
    Heap.readArr
        (Heap.writeArr (RoomH.getMemories ⟨[[⟨0, 0, "a", 0⟩]]⟩ ⟨0⟩ (some 1)).2
          (RoomH.getMemories ⟨[[⟨0, 0, "a", 0⟩]]⟩ ⟨0⟩ (some 1)).1 [])
        0 =
      Heap.readArr ⟨[[⟨0, 0, "a", 0⟩]]⟩ 0 :=
  c8_limit_returns_copy ⟨[[⟨0, 0, "a", 0⟩]]⟩ ⟨0⟩ 1 [] (by decide) (by decide)

/-! ### C10: `RoomManager.addMemory` on an unknown room id -/

/-- C10: `addMemory` with a roomId for which no room exists throws
`Room <id> not found` before any append or mirror `store` call, leaving
the manager state (hence every room's memory list) unchanged. -/
theorem c10_add_memory_unknown_room (s : RMState) (vdb : Bool)
    (st : Except Unit Unit) (roomId : Nat) (content : String) (now : Int)
    (h : RMState.getRoom s roomId = none) :
    RoomManager.addMemory s vdb st roomId content now =
      (.error (.roomNotFound roomId), s, []) := by
  simp [RoomManager.addMemory, h]

/-- Witness for C10: an empty manager has no room 5. -/
theorem c10_add_memory_unknown_room_witness :
    RoomManager.addMemory RMState.init true (.ok ()) 5 "hello" 0 =
      (.error (.roomNotFound 5), RMState.init, []) :=
  c10_add_memory_unknown_room RMState.init true (.ok ()) 5 "hello" 0 rfl

/-! ### C7: mirror store failure during `RoomManager.addMemory` -/

/-- C7 counterexample: with a vector DB configured whose `store` fails,
`addMemory` on an existing room does not return the memory successfully —
the rethrow from `ChromaVectorDB.store` propagates out of `addMemory`. -/
theorem c7_counterexample :
    (RoomManager.addMemory
        ⟨[⟨1, some "t1", "twitter", "n", [], 0, 0, []⟩], [("twitter", [1])], 2⟩
        true (.error ()) 1 "hi" 0).1 =
      .error MgrErr.storeFailed := by
  rfl

/-- C7 (amended): when the similarity-index mirror's `store` fails, the
in-memory append survives — the room's list in the post-call state holds
the new memory — but `addMemory` propagates the failure to its caller
instead of returning the memory. -/
theorem c7_mirror_failure_keeps_append (s : RMState) (roomId : Nat)
    (content : String) (now : Int) (room : RoomR)
    (h : RMState.getRoom s roomId = some room) :
    (RoomManager.addMemory s true (.error ()) roomId content now).1 =
      .error .storeFailed ∧
    (RMState.getRoom
        (RoomManager.addMemory s true (.error ()) roomId content now).2.1
        roomId).map RoomR.memories =
      some (room.memories ++
        [(Room.addMemory room content s.nextId now).1]) := by
  have hfind : s.rooms.find? (fun r => r.id == roomId) = some room := by
    simpa [RMState.getRoom] using h
  have hid : (room.id == roomId) = true := by
    simpa using List.find?_some hfind
  have hfun : ((fun r : RoomR => r.id == roomId) ∘
      (fun r : RoomR => if r.id == roomId
        then (Room.addMemory r content s.nextId now).2 else r)) =
      (fun r : RoomR => r.id == roomId) := by
    funext r
    by_cases hc : (r.id == roomId) = true
    · have hc' : r.id = roomId := by simpa using hc
      simp [hc', Room.addMemory]
    · simp [Function.comp, hc]
  constructor
  · simp [RoomManager.addMemory, h]
  · simp only [RoomManager.addMemory, RMState.getRoom, hfind]
    rw [if_pos trivial]
    rw [List.find?_map, hfun, hfind]
    simp [Room.addMemory, show room.id = roomId from by simpa using hid]

/-- Witness for C7 (amended): concrete one-room manager; the append is
visible in the post state while the call reports the store failure. -/
theorem c7_mirror_failure_keeps_append_witness :
    (RoomManager.addMemory
        ⟨[⟨1, some "t1", "twitter", "n", [], 0, 0, []⟩], [("twitter", [1])], 2⟩
        true (.error ()) 1 "hi" 9).1 = .error .storeFailed ∧
    (RMState.getRoom
        (RoomManager.addMemory
          ⟨[⟨1, some "t1", "twitter", "n", [], 0, 0, []⟩], [("twitter", [1])],
            2⟩
          true (.error ()) 1 "hi" 9).2.1 1).map RoomR.memories =
      some [⟨2, 1, "hi", 9⟩] :=
  c7_mirror_failure_keeps_append
    ⟨[⟨1, some "t1", "twitter", "n", [], 0, 0, []⟩], [("twitter", [1])], 2⟩
    1 "hi" 9 ⟨1, some "t1", "twitter", "n", [], 0, 0, []⟩ rfl

/-! ### C3: the 0.7 confidence threshold in `generateActions` -/

/-- C3: an outbound action event is generated only when the LLM-reported
suggestion confidence is at or above 0.7 (every emitted event carries such
a confidence), and a suggestion with confidence 0.69 yields zero outbound
events for its intent. -/
theorem c3_confidence_threshold (reg : ActionRegistry)
    (intents : List ProcessedIntent) (resps : List GenOutcome) :
    (∀ ev ∈ EventProcessor.generateActions reg intents resps,
      (7 : ℚ)/10 ≤ ev.confidence) ∧
    (∀ (intent : ProcessedIntent) (sug : Suggestion),
      sug.confidence = 69/100 →
      EventProcessor.genOne reg intent (.ok sug) = []) := by
  constructor
  · intro ev hev
    rw [EventProcessor.generateActions, List.mem_flatMap] at hev
    obtain ⟨p, _, hev⟩ := hev
    rcases hr : p.2 with e | sug
    · rw [hr] at hev; simp [EventProcessor.genOne] at hev
    · rw [hr] at hev
      by_cases hc : sug.confidence ≥ 7/10
      · rcases hd : getActionDefinition reg sug.selectedAction with _ | adef
        · simp [EventProcessor.genOne, hc, hd] at hev
        · by_cases hp : sug.hasParams
          · simp [EventProcessor.genOne, hc, hd, hp] at hev
            rw [hev]
            exact hc
          · simp [EventProcessor.genOne, hc, hd, hp] at hev
      · simp [EventProcessor.genOne, hc] at hev
  · intro intent sug hconf
    have : ¬ (sug.confidence ≥ 7/10) := by rw [hconf]; norm_num
    simp [EventProcessor.genOne, this]

/-- Witness for C3: with the registry's own `tweet` action selected, a
suggestion at confidence 0.69 produces no outbound event. -/
theorem c3_confidence_threshold_witness :
    EventProcessor.genOne coreActionRegistry ⟨"greeting", 1, none⟩
        (.ok ⟨"tweet", 69/100, true, some "hi", "because"⟩) = [] :=
  (c3_confidence_threshold coreActionRegistry [] []).2
    ⟨"greeting", 1, none⟩ ⟨"tweet", 69/100, true, some "hi", "because"⟩ rfl

/-! ### C2: enrichment retry-once-then-degrade -/

theorem truthy_ne_null_undef (j : Json) (h : j.truthy = true) :
    j ≠ .null ∧ j ≠ .undefined := by
  cases j <;> simp_all [Json.truthy]

theorem buildEnrichedContext_nonNull (content : String) (relMem : List String)
    (timeCtx : String) (result : Json) (ctx : EnrichedContext)
    (h : buildEnrichedContext content relMem timeCtx result = .ok ctx) :
    contextNonNull ctx := by
  simp only [buildEnrichedContext] at h
  split at h
  · cases h
    refine ⟨?_, ?_, ?_, ?_, ?_, ?_⟩ <;> dsimp only <;> split
    · exact (truthy_ne_null_undef _ (by assumption)).1
    · simp
    · exact (truthy_ne_null_undef _ (by assumption)).2
    · simp
    · exact (truthy_ne_null_undef _ (by assumption)).1
    · simp
    · exact (truthy_ne_null_undef _ (by assumption)).2
    · simp
    · exact (truthy_ne_null_undef _ (by assumption)).1
    · simp
    · exact (truthy_ne_null_undef _ (by assumption)).2
    · simp
  · cases h

theorem fallbackContext_nonNull (content : String) (relMem : List String)
    (timeCtx : String) :
    contextNonNull (fallbackContext content relMem timeCtx) := by
  refine ⟨?_, ?_, ?_, ?_, ?_, ?_⟩ <;> simp [fallbackContext]

theorem enrichContent_nonNull (content : String) (roomSupport : Bool)
    (relMemOracle : List String) (nowMs tsMs : Int) (a1 a2 : AnalyzeOutcome) :
    contextNonNull (EventProcessor.enrichContent content roomSupport
      relMemOracle nowMs tsMs a1 a2) := by
  unfold EventProcessor.enrichContent
  rcases a1 with e1 | p1
  · exact fallbackContext_nonNull _ _ _
  · simp only []
    rcases hf : firstAttempt p1 with e | result
    · simp only [hf]
      rcases a2 with e2 | p2
      · exact fallbackContext_nonNull _ _ _
      · rcases p2 with _ | result2
        · exact fallbackContext_nonNull _ _ _
        · rcases hb : buildEnrichedContext content
              (if roomSupport then relMemOracle else [])
              (EventProcessor.getTimeContext nowMs tsMs) result2 with e | ctx
          · simp only [hb]
            exact fallbackContext_nonNull _ _ _
          · simp only [hb]
            exact buildEnrichedContext_nonNull _ _ _ _ _ hb
    · simp only [hf]
      rcases hb : buildEnrichedContext content
          (if roomSupport then relMemOracle else [])
          (EventProcessor.getTimeContext nowMs tsMs) result with e | ctx
      · simp only [hb]
        exact fallbackContext_nonNull _ _ _
      · simp only [hb]
        exact buildEnrichedContext_nonNull _ _ _ _ _ hb

/-- C2: (i) a first enrichment response that fails to parse (or validate)
as JSON triggers exactly one retry — two `analyze` calls in total; (ii) for
every behavior of the completion collaborator, `process` returns a result
whose enrichment context is the one `enrichContent` built, with non-null
summary/sentiment/intent (and list-valued topics/entities); (iii) when the
retry also fails, the enrichment context is the minimal fallback:
content-derived summary, empty topics and entities, sentiment "neutral",
intent "unknown". -/
theorem c2_enrichment_retry_and_fallback (reg : ActionRegistry)
    (roomSupport : Bool) (relMemOracle : List String)
    (intents : List ProcessedIntent) (content : String) (nowMs tsMs : Int)
    (a1 a2 : AnalyzeOutcome) (genResps : List GenOutcome) :
    (∀ p1, a1 = .ok p1 → firstAttempt p1 = .error () →
      EventProcessor.enrichAnalyzeCalls a1 = 2) ∧
    (EventProcessor.process reg roomSupport relMemOracle (.ok ()) intents
        content nowMs tsMs a1 a2 genResps =
      .ok { intents := intents,
            suggestedActions :=
              EventProcessor.generateActions reg intents genResps,
            enrichedContext :=
              EventProcessor.enrichContent content roomSupport relMemOracle
                nowMs tsMs a1 a2 }) ∧
    contextNonNull (EventProcessor.enrichContent content roomSupport
      relMemOracle nowMs tsMs a1 a2) ∧
    (∀ p1, a1 = .ok p1 → firstAttempt p1 = .error () →
      (a2 = .error () ∨ a2 = .ok none) →
      EventProcessor.enrichContent content roomSupport relMemOracle nowMs
          tsMs a1 a2 =
        { timeContext := EventProcessor.getTimeContext nowMs tsMs
          summary := .str (content.take 100)
          topics := []
          relatedMemories := if roomSupport then relMemOracle else []
          sentiment := .str "neutral"
          entities := []
          intent := .str "unknown" }) := by
  refine ⟨?_, ?_, enrichContent_nonNull _ _ _ _ _ _ _, ?_⟩
  · intro p1 h1 hf
    rw [h1, EventProcessor.enrichAnalyzeCalls, hf]
  · rcases hr : roomSupport with _ | _ <;>
      simp [EventProcessor.process, hr]
  · intro p1 h1 hf h2
    subst h1
    rcases h2 with h2 | h2 <;> subst h2 <;>
      simp [EventProcessor.enrichContent, hf, fallbackContext]

set_option maxRecDepth 4000 in
/-- Witness for C2: a first response that is not JSON (`.ok none`) and a
retry that is not JSON either — two calls are made and the fallback
enrichment is returned inside a successful `process` result. -/
theorem c2_enrichment_retry_and_fallback_witness :
    EventProcessor.enrichAnalyzeCalls (.ok none) = 2 ∧
    EventProcessor.enrichContent "hello world" true ["m1"] 0 0 (.ok none)
        (.ok none) =
      { timeContext := EventProcessor.getTimeContext 0 0
        summary := .str "hello world"
        topics := []
        relatedMemories := ["m1"]
        sentiment := .str "neutral"
        entities := []
        intent := .str "unknown" } := by
  obtain ⟨hcalls, _, _, hfall⟩ :=
    c2_enrichment_retry_and_fallback [] true ["m1"] [] "hello world" 0 0
      (.ok none) (.ok none) []
  refine ⟨hcalls none rfl rfl, ?_⟩
  have := hfall none rfl rfl (Or.inr rfl)
  rw [this]
  rfl

/-! ### C1: one room per (platformId, platform) pair

Auxiliary lemmas about the JS `Map`/`Set` embedding, then soundness and
completeness of `getRoomByPlatformId` under the `RMState` invariant, then
invariant preservation along `Core.emit`. -/

theorem alookup_aset_self {α : Type} (m : List (String × α)) (k : String)
    (v : α) : alookup (aset m k v) k = some v := by
  induction m with
  | nil => simp [aset, alookup]
  | cons kv rest ih =>
    by_cases h : kv.1 == k
    · simp [aset, h, alookup]
    · simp [aset, h, alookup, ih]

theorem alookup_aset_ne {α : Type} (m : List (String × α)) (k k' : String)
    (v : α) (h : k' ≠ k) : alookup (aset m k v) k' = alookup m k' := by
  have hkk : ¬ (k == k') = true := by
    simp
    exact fun he => h he.symm
  induction m with
  | nil =>
    simp only [aset, alookup]
    rw [if_neg hkk]
  | cons kv rest ih =>
    by_cases hk : (kv.1 == k) = true
    · have hk1 : kv.1 = k := by simpa using hk
      have hkv : ¬ (kv.1 == k') = true := by
        simp [hk1]
        exact fun he => h he.symm
      simp only [aset, hk, if_true, alookup]
      rw [if_neg hkk, if_neg hkv]
    · simp only [aset, hk, if_false, alookup]
      by_cases hk2 : (kv.1 == k') = true
      · rw [if_pos hk2, if_pos hk2]
      · rw [if_neg hk2, if_neg hk2, ih]

theorem mem_setAdd_self (xs : List Nat) (x : Nat) : x ∈ setAdd xs x := by
  by_cases hc : xs.contains x = true
  · simp only [setAdd]
    rw [if_pos hc]
    simpa using hc
  · simp only [setAdd]
    rw [if_neg hc]
    simp

theorem mem_setAdd_of_mem (xs : List Nat) (x y : Nat) (h : y ∈ xs) :
    y ∈ setAdd xs x := by
  by_cases hc : xs.contains x = true
  · simp only [setAdd]
    rw [if_pos hc]
    exact h
  · simp only [setAdd]
    rw [if_neg hc]
    exact List.mem_append_left _ h

theorem mem_setAdd_elim (xs : List Nat) (x y : Nat) (h : y ∈ setAdd xs x) :
    y ∈ xs ∨ y = x := by
  by_cases hc : xs.contains x = true
  · simp only [setAdd] at h
    rw [if_pos hc] at h
    exact Or.inl h
  · simp only [setAdd] at h
    rw [if_neg hc] at h
    simpa using h

theorem find?_eq_of_mem_nodup (rooms : List RoomR)
    (hnd : (rooms.map RoomR.id).Nodup) (r : RoomR) (hr : r ∈ rooms) :
    rooms.find? (fun x => x.id == r.id) = some r := by
  have hex : ∃ x, x ∈ rooms ∧ (x.id == r.id) = true := ⟨r, hr, by simp⟩
  have hsome : (rooms.find? (fun x => x.id == r.id)).isSome := by
    rw [List.find?_isSome]
    simpa using hex
  obtain ⟨x, hx⟩ := Option.isSome_iff_exists.mp hsome
  have hxm := List.mem_of_find?_eq_some hx
  have hxid : x.id = r.id := by simpa using List.find?_some hx
  have hxr : x = r := List.inj_on_of_nodup_map hnd hxm hr hxid
  rw [hx, hxr]

/-- Soundness: a room returned by `getRoomByPlatformId` is a stored room
carrying exactly the requested pair. -/
theorem getRoomByPlatformId_sound (s : RMState) (hinv : s.inv)
    (pid : Option String) (p : String) (r : RoomR)
    (h : RoomManager.getRoomByPlatformId s pid p = some r) :
    r ∈ s.rooms ∧ r.platformId = pid ∧ r.platform = p := by
  obtain ⟨h1, h2, h3, h4, h5⟩ := hinv
  unfold RoomManager.getRoomByPlatformId at h
  cases hal : alookup s.platformRooms p with
  | none => rw [hal] at h; cases h
  | some ids =>
    rw [hal] at h
    simp only [] at h
    cases hfind : (ids.map (fun i => s.rooms.find? (fun x => x.id == i))).find?
        (fun r? => optPlatformId r? == pid) with
    | none => rw [hfind] at h; cases h
    | some r? =>
      rw [hfind] at h
      simp only [] at h
      subst h
      have hmem := List.mem_of_find?_eq_some hfind
      have hpred : (optPlatformId (some r) == pid) = true := by
        simpa using List.find?_some hfind
      have hpid : r.platformId = pid := by simpa [optPlatformId] using hpred
      obtain ⟨i, hi_mem, hi_eq⟩ := List.mem_map.mp hmem
      have hrm := List.mem_of_find?_eq_some hi_eq
      have hrid : r.id = i := by simpa using List.find?_some hi_eq
      obtain ⟨r', hr', hid', hp'⟩ := h3 p ids hal i hi_mem
      have : r = r' :=
        List.inj_on_of_nodup_map h2 hrm hr' (by rw [hrid, hid'])
      exact ⟨hrm, hpid, by rw [this, hp']⟩

/-- Completeness: when `getRoomByPlatformId` misses, no stored room carries
the pair. -/
theorem getRoomByPlatformId_none (s : RMState) (hinv : s.inv)
    (pid : Option String) (p : String)
    (h : RoomManager.getRoomByPlatformId s pid p = none) :
    ∀ r ∈ s.rooms, ¬ (r.platformId = pid ∧ r.platform = p) := by
  rintro r hr ⟨hpid, hp⟩
  obtain ⟨h1, h2, h3, h4, h5⟩ := hinv
  obtain ⟨ids, hids, hmemid⟩ := h4 r hr
  rw [hp] at hids
  unfold RoomManager.getRoomByPlatformId at h
  rw [hids] at h
  simp only [] at h
  have hfr : s.rooms.find? (fun x => x.id == r.id) = some r :=
    find?_eq_of_mem_nodup s.rooms h2 r hr
  have hmem2 : some r ∈ ids.map (fun i => s.rooms.find? (fun x => x.id == i)) :=
    List.mem_map.mpr ⟨r.id, hmemid, hfr⟩
  have hpred : (optPlatformId (some r) == pid) = true := by
    simp [optPlatformId, hpid]
  have hsome : ((ids.map (fun i => s.rooms.find? (fun x => x.id == i))).find?
      (fun r? => optPlatformId r? == pid)).isSome := by
    rw [List.find?_isSome]
    exact ⟨some r, hmem2, hpred⟩
  cases hfind : (ids.map (fun i => s.rooms.find? (fun x => x.id == i))).find?
      (fun r? => optPlatformId r? == pid) with
  | none => rw [hfind] at hsome; simp at hsome
  | some r? =>
    rw [hfind] at h
    simp only [] at h
    subst h
    have hnone_mem := List.mem_of_find?_eq_some hfind
    obtain ⟨i, hi, hfi⟩ := List.mem_map.mp hnone_mem
    obtain ⟨r', hr', hid', hp'⟩ := h3 p ids hids i hi
    have : (s.rooms.find? (fun x => x.id == i)).isSome := by
      rw [List.find?_isSome]
      exact ⟨r', hr', by simp [hid']⟩
    rw [hfi] at this
    simp at this

theorem inv_init : RMState.init.inv := by
  refine ⟨?_, ?_, ?_, ?_, ?_⟩
  · intro r hr; cases hr
  · simp [RMState.init]
  · intro p ids h
    simp [RMState.init, alookup] at h
  · intro r hr; cases hr
  · intro pid p; simp [RMState.init]

theorem inv_createRoom (s : RMState) (hinv : s.inv) (pid : Option String)
    (p name : String) (parts : List (Option String)) (now : Int)
    (hnone : RoomManager.getRoomByPlatformId s pid p = none) :
    (RoomManager.createRoom s pid p name parts now).2.inv ∧
    (RoomManager.createRoom s pid p name parts now).2.rooms.countP
      (pairPred pid p) = 1 := by
  obtain ⟨h1, h2, h3, h4, h5⟩ := hinv
  have hany : s.rooms.any (fun r => r.id == s.nextId) = false := by
    rw [List.any_eq_false]
    intro r hr
    have := h1 r hr
    simp
    omega
  have hcount0 : s.rooms.countP (pairPred pid p) = 0 := by
    rw [List.countP_eq_zero]
    intro r hr
    have hno := getRoomByPlatformId_none s ⟨h1, h2, h3, h4, h5⟩ pid p hnone r hr
    simp [pairPred]
    intro hpid hp
    exact absurd ⟨hpid, hp⟩ hno
  have hs2 : (RoomManager.createRoom s pid p name parts now).2 =
      { rooms := s.rooms ++
          [{ id := s.nextId, platformId := pid, platform := p, name := name,
             participants := parts, createdAt := now, lastActive := now,
             memories := [] }],
        platformRooms := aset s.platformRooms p
          (setAdd ((alookup s.platformRooms p).getD []) s.nextId),
        nextId := s.nextId + 1 } := by
    simp only [RoomManager.createRoom]
    rw [if_neg (by rw [hany]; simp)]
  rw [hs2]
  constructor
  · refine ⟨?_, ?_, ?_, ?_, ?_⟩
    · intro r hr
      simp only [List.mem_append, List.mem_singleton] at hr
      rcases hr with hr | hr
      · have := h1 r hr; simp only []; omega
      · subst hr; simp only []; omega
    · simp only [List.map_append, List.map_cons, List.map_nil]
      rw [List.nodup_append]
      refine ⟨h2, by simp, ?_⟩
      intro a ha hb
      obtain ⟨r, hr, hid⟩ := List.mem_map.mp ha
      simp at hb
      have := h1 r hr
      omega
    · intro p' ids' hlk i hi
      by_cases hp' : p' = p
      · subst hp'
        rw [alookup_aset_self] at hlk
        have hids' : ids' = setAdd ((alookup s.platformRooms p').getD [])
            s.nextId := by
          cases hlk
          rfl
        subst hids'
        rcases mem_setAdd_elim _ _ _ hi with hin | hin
        · cases halp : alookup s.platformRooms p' with
          | none => rw [halp] at hin; cases hin
          | some ids1 =>
            rw [halp] at hin
            obtain ⟨r, hr, hid, hplat⟩ := h3 p' ids1 halp i hin
            exact ⟨r, List.mem_append_left _ hr, hid, hplat⟩
        · subst hin
          refine ⟨_, List.mem_append_right _ (List.mem_singleton_self _), rfl,
            rfl⟩
      · rw [alookup_aset_ne _ _ _ _ hp'] at hlk
        obtain ⟨r, hr, hid, hplat⟩ := h3 p' ids' hlk i hi
        exact ⟨r, List.mem_append_left _ hr, hid, hplat⟩
    · intro r hr
      simp only [List.mem_append, List.mem_singleton] at hr
      rcases hr with hr | hr
      · obtain ⟨ids1, hids1, hm⟩ := h4 r hr
        by_cases hrp : r.platform = p
        · rw [hrp] at hids1 ⊢
          refine ⟨setAdd ((alookup s.platformRooms p).getD []) s.nextId,
            alookup_aset_self _ _ _, ?_⟩
          rw [hids1]
          exact mem_setAdd_of_mem _ _ _ hm
        · rw [alookup_aset_ne _ _ _ _ hrp]
          exact ⟨ids1, hids1, hm⟩
      · subst hr
        exact ⟨setAdd ((alookup s.platformRooms p).getD []) s.nextId,
          alookup_aset_self _ _ _, mem_setAdd_self _ _⟩
    · intro pid' p'
      rw [List.countP_append]
      by_cases hpair : pairPred pid' p'
          { id := s.nextId, platformId := pid, platform := p, name := name,
            participants := parts, createdAt := now, lastActive := now,
            memories := [] } = true
      · have hpp : pid' = pid ∧ p' = p := by
          simp [pairPred] at hpair
          exact ⟨hpair.1.symm, hpair.2.symm⟩
        obtain ⟨he1, he2⟩ := hpp
        subst he1; subst he2
        rw [hcount0]
        simp [List.countP_cons, hpair]
      · have : List.countP (pairPred pid' p')
            [{ id := s.nextId, platformId := pid, platform := p, name := name,
               participants := parts, createdAt := now, lastActive := now,
               memories := [] }] = 0 := by
          simp [List.countP_cons, hpair]
        rw [this]
        have := h5 pid' p'
        omega
  · rw [List.countP_append, hcount0]
    have hpair : pairPred pid p
        { id := s.nextId, platformId := pid, platform := p, name := name,
          participants := parts, createdAt := now, lastActive := now,
          memories := [] } = true := by
      simp [pairPred]
    simp [List.countP_cons, hpair]

theorem inv_addMemory (s : RMState) (hinv : s.inv) (vdb : Bool)
    (st : Except Unit Unit) (roomId : Nat) (content : String) (now : Int) :
    (RoomManager.addMemory s vdb st roomId content now).2.1.inv := by
  obtain ⟨h1, h2, h3, h4, h5⟩ := hinv
  cases hf : RMState.getRoom s roomId with
  | none =>
    have : (RoomManager.addMemory s vdb st roomId content now).2.1 = s := by
      simp [RoomManager.addMemory, hf]
    rw [this]
    exact ⟨h1, h2, h3, h4, h5⟩
  | some room =>
    have hstate : (RoomManager.addMemory s vdb st roomId content now).2.1 =
        { rooms := s.rooms.map (fun r =>
            if r.id == roomId then (Room.addMemory r content s.nextId now).2
            else r),
          platformRooms := s.platformRooms, nextId := s.nextId + 1 } := by
      cases vdb <;> rcases st with e | u <;> simp [RoomManager.addMemory, hf]
    rw [hstate]
    have hproj : ∀ r : RoomR,
        ((if r.id == roomId then (Room.addMemory r content s.nextId now).2
          else r).id = r.id ∧
         (if r.id == roomId then (Room.addMemory r content s.nextId now).2
          else r).platformId = r.platformId ∧
         (if r.id == roomId then (Room.addMemory r content s.nextId now).2
          else r).platform = r.platform) := by
      intro r
      by_cases hc : (r.id == roomId) = true <;> simp [hc, Room.addMemory]
    refine ⟨?_, ?_, ?_, ?_, ?_⟩
    · intro r' hr'
      obtain ⟨r, hr, hfr⟩ := List.mem_map.mp hr'
      rw [← hfr, (hproj r).1]
      have := h1 r hr
      simp only []
      omega
    · have hmm : (s.rooms.map (fun r =>
          if r.id == roomId then (Room.addMemory r content s.nextId now).2
          else r)).map RoomR.id = s.rooms.map RoomR.id := by
        rw [List.map_map]
        apply List.map_congr_left
        intro r _
        exact (hproj r).1
      simp only []
      rw [hmm]
      exact h2
    · intro p' ids hlk i hi
      obtain ⟨r, hr, hid, hplat⟩ := h3 p' ids hlk i hi
      refine ⟨_, List.mem_map_of_mem _ hr, ?_, ?_⟩
      · rw [(hproj r).1]; exact hid
      · rw [(hproj r).2.2]; exact hplat
    · intro r' hr'
      obtain ⟨r, hr, hfr⟩ := List.mem_map.mp hr'
      obtain ⟨ids, hids, hm⟩ := h4 r hr
      refine ⟨ids, ?_, ?_⟩
      · rw [← hfr, (hproj r).2.2]; exact hids
      · rw [← hfr, (hproj r).1]; exact hm
    · intro pid' p'
      simp only []
      rw [List.countP_map]
      have : s.rooms.countP ((pairPred pid' p') ∘ (fun r =>
          if r.id == roomId then (Room.addMemory r content s.nextId now).2
          else r)) = s.rooms.countP (pairPred pid' p') := by
        apply List.countP_congr
        intro r _
        simp only [Function.comp]
        unfold pairPred
        rw [(hproj r).2.1, (hproj r).2.2]
      rw [this]
      exact h5 pid' p'

theorem inv_emitRoomStep (vdb : Bool) (s : RMState) (hinv : s.inv)
    (inp : EmitInput) : (Core.emitRoomStep vdb s inp).inv := by
  unfold Core.emitRoomStep Core.ensureRoom
  cases h : RoomManager.getRoomByPlatformId s (Core.getPlatformId inp.event)
      (Core.getPlatform inp.event) with
  | some room =>
    simp only [h]
    exact inv_addMemory s hinv vdb inp.storeOutcome room.id inp.event.content
      inp.now
  | none =>
    simp only [h]
    exact inv_addMemory _
      (inv_createRoom s hinv _ _ _ _ _ h).1 vdb inp.storeOutcome _
      inp.event.content inp.now

theorem inv_processEvents (vdb : Bool) (inps : List EmitInput) :
    (Core.processEvents vdb inps).inv := by
  suffices h : ∀ s : RMState, s.inv →
      (inps.foldl (Core.emitRoomStep vdb) s).inv from h RMState.init inv_init
  induction inps with
  | nil => intro s hs; exact hs
  | cons inp rest ih =>
    intro s hs
    exact ih _ (inv_emitRoomStep vdb s hs inp)

/-- C1: processing any sequence of inbound events through `Core.emit`
(from a fresh dispatcher) leaves at most one room per (platformId,
platform) pair; an event whose derived pair is unseen creates exactly one
room with that pair, and an event whose pair is already present is routed
to that existing room — `ensureRoom` returns it and leaves the state
untouched, and it is a stored room carrying exactly the derived pair. -/
theorem c1_one_room_per_pair (vdb : Bool) (inps : List EmitInput) :
    (∀ pid p,
      (Core.processEvents vdb inps).rooms.countP (pairPred pid p) ≤ 1) ∧
    (∀ e now, RoomManager.getRoomByPlatformId (Core.processEvents vdb inps)
        (Core.getPlatformId e) (Core.getPlatform e) = none →
      (Core.ensureRoom (Core.processEvents vdb inps) e now).2.rooms.countP
        (pairPred (Core.getPlatformId e) (Core.getPlatform e)) = 1) ∧
    (∀ e now r, RoomManager.getRoomByPlatformId (Core.processEvents vdb inps)
        (Core.getPlatformId e) (Core.getPlatform e) = some r →
      Core.ensureRoom (Core.processEvents vdb inps) e now =
        (r, Core.processEvents vdb inps) ∧
      r ∈ (Core.processEvents vdb inps).rooms ∧
      r.platformId = Core.getPlatformId e ∧
      r.platform = Core.getPlatform e) := by
  have hinv := inv_processEvents vdb inps
  refine ⟨hinv.2.2.2.2, ?_, ?_⟩
  · intro e now hnone
    unfold Core.ensureRoom
    simp only []
    rw [hnone]
    exact (inv_createRoom _ hinv _ _ _ _ _ hnone).2
  · intro e now r hsome
    refine ⟨?_, getRoomByPlatformId_sound _ hinv _ _ _ hsome⟩
    unfold Core.ensureRoom
    simp only []
    rw [hsome]

/-- Witness for C1: a first `tweet_received` for tweet "t1" creates exactly
one "twitter"/"t1" room, and a later event with the same pair is routed to
that very room without touching the state. -/
theorem c1_one_room_per_pair_witness :
    (Core.ensureRoom (Core.processEvents false [])
        ⟨"tweet_received", "twitter", "hello", 0, some "t1", none,
          some "alice"⟩ 0).2.rooms.countP
      (pairPred (some "t1") "twitter") = 1 ∧
    Core.ensureRoom
        (Core.processEvents false
          [⟨⟨"tweet_received", "twitter", "hello", 0, some "t1", none,
             some "alice"⟩, 0, .ok ()⟩])
        ⟨"tweet_received", "twitter", "hi again", 7, some "t1", none,
          some "bob"⟩ 7 =
      (⟨0, some "t1", "twitter", "Twitter Thread by alice",
         [some "alice", some "twitter"], 0, 0, [⟨1, 0, "hello", 0⟩]⟩,
       Core.processEvents false
         [⟨⟨"tweet_received", "twitter", "hello", 0, some "t1", none,
            some "alice"⟩, 0, .ok ()⟩]) := by
  constructor
  · have hthm := (c1_one_room_per_pair false []).2.1
      ⟨"tweet_received", "twitter", "hello", 0, some "t1", none, some "alice"⟩
      0 (by decide)
    have h1 : Core.getPlatformId
        ⟨"tweet_received", "twitter", "hello", 0, some "t1", none,
          some "alice"⟩ = some "t1" := by decide
    have h2 : Core.getPlatform
        ⟨"tweet_received", "twitter", "hello", 0, some "t1", none,
          some "alice"⟩ = "twitter" := by decide
    rw [h1, h2] at hthm
    exact hthm
  · exact ((c1_one_room_per_pair false
        [⟨⟨"tweet_received", "twitter", "hello", 0, some "t1", none,
           some "alice"⟩, 0, .ok ()⟩]).2.2
      ⟨"tweet_received", "twitter", "hi again", 7, some "t1", none,
        some "bob"⟩ 7
      ⟨0, some "t1", "twitter", "Twitter Thread by alice",
        [some "alice", some "twitter"], 0, 0, [⟨1, 0, "hello", 0⟩]⟩
      (by decide)).1
